import Mathlib

/-
  Verification of the epoll core of the Shadow simulator
  (src/src/main/host/descriptor/shd-epoll.c).

  The development shallowly embeds the C source: the per-watch flag vector
  (enum _EpollWatchFlags) becomes a structure of Bools, the epoll flag set
  (enum _EpollFlags) likewise, the GHashTable of watches becomes an
  association list keyed by descriptor handle, and the stateful C functions
  become pure Lean functions from state to state.  External collaborators
  (descriptor status, the OS multiplexer oracle, the process layer, the
  scheduler) are passed in as explicit inputs, mirroring the calls the C
  code makes into them.
-/

/-- The status bits of a watched virtual descriptor, as returned by
`descriptor_getStatus` (DS_ACTIVE, DS_READABLE, DS_WRITABLE, DS_CLOSED). -/
structure DescStatus where
  active : Bool
  readable : Bool
  writable : Bool
  closed : Bool
  deriving DecidableEq, Repr

/-- The subscription stored in a watch (`struct epoll_event`): the events
mask bits the epoll core reads (EPOLLIN, EPOLLOUT, EPOLLET, EPOLLONESHOT)
and the user data word (cookie). -/
structure EvMask where
  epollin : Bool
  epollout : Bool
  epollet : Bool
  epolloneshot : Bool
  cookie : Nat
  deriving DecidableEq, Repr

/-- The per-watch flag vector, one Bool per bit of enum _EpollWatchFlags. -/
structure WatchFlags where
  active : Bool
  readable : Bool
  waitingRead : Bool
  readChanged : Bool
  writable : Bool
  waitingWrite : Bool
  writeChanged : Bool
  closed : Bool
  watching : Bool
  edgeTrigger : Bool
  edgeReported : Bool
  oneShot : Bool
  oneShotReported : Bool
  deriving DecidableEq, Repr

/-- The all-zero flag vector (EWF_NONE), the state of a freshly allocated
watch (`g_new0` in `_epollwatch_new`). -/
def ewfNone : WatchFlags :=
  { active := false, readable := false, waitingRead := false,
    readChanged := false, writable := false, waitingWrite := false,
    writeChanged := false, closed := false, watching := false,
    edgeTrigger := false, edgeReported := false, oneShot := false,
    oneShotReported := false }

/-- `_epollwatch_updateStatus`: recompute the status- and mask-derived bits
from the fresh descriptor status and the stored subscription, carry over the
lazily updated bits, and set the change bits when readability or writability
differs from the pre-refresh value. -/
def updateStatus (old : WatchFlags) (status : DescStatus) (events : EvMask) : WatchFlags :=
  let fresh : WatchFlags :=
    { active := status.active
      readable := status.readable
      writable := status.writable
      closed := status.closed
      waitingRead := events.epollin
      waitingWrite := events.epollout
      edgeTrigger := events.epollet
      oneShot := events.epolloneshot
      readChanged := old.readChanged
      writeChanged := old.writeChanged
      watching := old.watching
      edgeReported := old.edgeReported
      oneShotReported := old.oneShotReported }
  { fresh with
      readChanged := fresh.readChanged || (old.readable != fresh.readable)
      writeChanged := fresh.writeChanged || (old.writable != fresh.writable) }

/-- The readiness decision of `_epollwatch_isReady` as a function of the
already refreshed flag vector (the body after the `_epollwatch_updateStatus`
call). -/
def isReadyFlags (f : WatchFlags) : Bool :=
  if f.closed || !f.active || !f.watching then false
  else
    let hasReadEvent := f.readable && f.waitingRead
    let hasWriteEvent := f.writable && f.waitingWrite
    let isReady :=
      if f.edgeTrigger then
        (hasReadEvent && (f.readChanged || !f.edgeReported)) ||
        (hasWriteEvent && (f.writeChanged || !f.edgeReported))
      else
        hasReadEvent || hasWriteEvent
    if isReady && f.oneShot && f.oneShotReported then false else isReady

/-- An EpollWatch: the stored subscription and the flag vector.  The
descriptor itself is identified by the handle under which the watch is
keyed; its status is an input wherever the C code calls
`descriptor_getStatus`. -/
structure Watch where
  event : EvMask
  flags : WatchFlags
  deriving DecidableEq, Repr

/-- Refresh a watch from fresh descriptor status (the
`_epollwatch_updateStatus(watch)` call). -/
def refreshW (d : DescStatus) (w : Watch) : Watch :=
  { w with flags := updateStatus w.flags d w.event }

/-- `_epollwatch_isReady`: refresh the flags, then decide readiness.
Returns the mutated watch together with the decision. -/
def epollwatch_isReady (d : DescStatus) (w : Watch) : Watch × Bool :=
  let w1 := refreshW d w
  (w1, isReadyFlags w1.flags)

/-- One reported `struct epoll_event`: the user cookie and the events bits
`epoll_getEvents` writes (EPOLLIN, EPOLLOUT, EPOLLET). -/
structure Report where
  cookie : Nat
  epollin : Bool
  epollout : Bool
  epollet : Bool
  deriving DecidableEq, Repr

/-- The event written for a ready watch in `epoll_getEvents` (lines
498-509), computed from the refreshed flags. -/
def mkReport (w : Watch) : Report :=
  { cookie := w.event.cookie
    epollin := w.flags.readable && w.flags.waitingRead
    epollout := w.flags.writable && w.flags.waitingWrite
    epollet := w.flags.edgeTrigger }

/-- The flag mutation `epoll_getEvents` applies to a watch it has just
reported: clear both change bits, and set the reported bit for
edge-triggered and for one-shot mode when those modes are on. -/
def reportMark (w : Watch) : Watch :=
  { w with flags :=
    { w.flags with
        readChanged := false
        writeChanged := false
        edgeReported := w.flags.edgeReported || w.flags.edgeTrigger
        oneShotReported := w.flags.oneShotReported || w.flags.oneShot } }

/-- The `epoll_getEvents` body for one watch: refresh and test readiness;
when ready, emit the event and mark the watch reported. -/
def collectWatch (d : DescStatus) (w : Watch) : Watch × Option Report :=
  let w1 := refreshW d w
  if isReadyFlags w1.flags then (reportMark w1, some (mkReport w1))
  else (w1, none)

/-- The EPOLL_CTL_MOD mutation of a watch (epoll_control, lines 431-435):
store the new subscription and clear both reported bits. -/
def modWatch (w : Watch) (ev : EvMask) : Watch :=
  { event := ev
    flags := { w.flags with edgeReported := false, oneShotReported := false } }

/-- The EPOLL_CTL_DEL mutation of the watch object (epoll_control, line
450): clear the watching bit (lazy deletion). -/
def delWatch (w : Watch) : Watch :=
  { w with flags := { w.flags with watching := false } }

/-- A freshly added watch (`_epollwatch_new` followed by
`watch->flags |= EWF_WATCHING`). -/
def newWatch (ev : EvMask) : Watch :=
  { event := ev, flags := { ewfNone with watching := true } }

@[simp] theorem updateStatus_active (f : WatchFlags) (d : DescStatus) (ev : EvMask) :
    (updateStatus f d ev).active = d.active := rfl

@[simp] theorem updateStatus_readable (f : WatchFlags) (d : DescStatus) (ev : EvMask) :
    (updateStatus f d ev).readable = d.readable := rfl

@[simp] theorem updateStatus_writable (f : WatchFlags) (d : DescStatus) (ev : EvMask) :
    (updateStatus f d ev).writable = d.writable := rfl

@[simp] theorem updateStatus_closed (f : WatchFlags) (d : DescStatus) (ev : EvMask) :
    (updateStatus f d ev).closed = d.closed := rfl

@[simp] theorem updateStatus_waitingRead (f : WatchFlags) (d : DescStatus) (ev : EvMask) :
    (updateStatus f d ev).waitingRead = ev.epollin := rfl

@[simp] theorem updateStatus_waitingWrite (f : WatchFlags) (d : DescStatus) (ev : EvMask) :
    (updateStatus f d ev).waitingWrite = ev.epollout := rfl

@[simp] theorem updateStatus_edgeTrigger (f : WatchFlags) (d : DescStatus) (ev : EvMask) :
    (updateStatus f d ev).edgeTrigger = ev.epollet := rfl

@[simp] theorem updateStatus_oneShot (f : WatchFlags) (d : DescStatus) (ev : EvMask) :
    (updateStatus f d ev).oneShot = ev.epolloneshot := rfl

@[simp] theorem updateStatus_watching (f : WatchFlags) (d : DescStatus) (ev : EvMask) :
    (updateStatus f d ev).watching = f.watching := rfl

@[simp] theorem updateStatus_edgeReported (f : WatchFlags) (d : DescStatus) (ev : EvMask) :
    (updateStatus f d ev).edgeReported = f.edgeReported := rfl

@[simp] theorem updateStatus_oneShotReported (f : WatchFlags) (d : DescStatus) (ev : EvMask) :
    (updateStatus f d ev).oneShotReported = f.oneShotReported := rfl

@[simp] theorem updateStatus_readChanged (f : WatchFlags) (d : DescStatus) (ev : EvMask) :
    (updateStatus f d ev).readChanged = (f.readChanged || (f.readable != d.readable)) := rfl

@[simp] theorem updateStatus_writeChanged (f : WatchFlags) (d : DescStatus) (ev : EvMask) :
    (updateStatus f d ev).writeChanged = (f.writeChanged || (f.writable != d.writable)) := rfl

/-- Helper: the readiness decision, characterized over an arbitrary flag
vector. -/
theorem isReadyFlags_iff (g : WatchFlags) :
    isReadyFlags g = true ↔
      ((g.active = true ∧ g.closed = false ∧ g.watching = true) ∧
       ¬(g.oneShot = true ∧ g.oneShotReported = true) ∧
       ((g.edgeTrigger = false ∧
           ((g.readable = true ∧ g.waitingRead = true) ∨
            (g.writable = true ∧ g.waitingWrite = true))) ∨
        (g.edgeTrigger = true ∧
           ((g.readable = true ∧ g.waitingRead = true ∧
               (g.readChanged = true ∨ g.edgeReported = false)) ∨
            (g.writable = true ∧ g.waitingWrite = true ∧
               (g.writeChanged = true ∨ g.edgeReported = false)))))) := by
  rcases g with ⟨a, r, wr, rc, wb, ww, wc, cl, wa, et, er, os, osr⟩
  revert a r wr rc wb ww wc cl wa et er os osr
  decide

/-- C1: `_epollwatch_isReady` first refreshes the watch from the fresh
descriptor status and subscription mask, then returns true iff, on the
refreshed flags: active is set, closed is not, watching is set; a candidate
event exists and qualifies (any candidate in level-triggered mode; in
edge-triggered mode a candidate whose change bit is set or with
edge-reported unset); and not both one-shot and one-shot-reported are set. -/
theorem epollwatch_isReady_spec (d : DescStatus) (w : Watch) :
    (epollwatch_isReady d w).1 = refreshW d w ∧
    ((epollwatch_isReady d w).2 = true ↔
      (((refreshW d w).flags.active = true ∧ (refreshW d w).flags.closed = false ∧
          (refreshW d w).flags.watching = true) ∧
       ¬((refreshW d w).flags.oneShot = true ∧ (refreshW d w).flags.oneShotReported = true) ∧
       (((refreshW d w).flags.edgeTrigger = false ∧
           (((refreshW d w).flags.readable = true ∧ (refreshW d w).flags.waitingRead = true) ∨
            ((refreshW d w).flags.writable = true ∧ (refreshW d w).flags.waitingWrite = true))) ∨
        ((refreshW d w).flags.edgeTrigger = true ∧
           (((refreshW d w).flags.readable = true ∧ (refreshW d w).flags.waitingRead = true ∧
               ((refreshW d w).flags.readChanged = true ∨
                (refreshW d w).flags.edgeReported = false)) ∨
            ((refreshW d w).flags.writable = true ∧ (refreshW d w).flags.waitingWrite = true ∧
               ((refreshW d w).flags.writeChanged = true ∨
                (refreshW d w).flags.edgeReported = false))))))) :=
  ⟨rfl, isReadyFlags_iff (refreshW d w).flags⟩

/-- C4: `_epollwatch_updateStatus` rederives active, readable, writable,
closed from the fresh status and waiting-read, waiting-write,
edge-triggered, one-shot from the fresh mask; preserves watching,
edge-reported, one-shot-reported; and the change bits come out as their
old value or-ed with whether readability (resp. writability) differs from
the pre-refresh value. -/
theorem updateStatus_spec (f : WatchFlags) (d : DescStatus) (ev : EvMask) :
    (updateStatus f d ev).active = d.active ∧
    (updateStatus f d ev).readable = d.readable ∧
    (updateStatus f d ev).writable = d.writable ∧
    (updateStatus f d ev).closed = d.closed ∧
    (updateStatus f d ev).waitingRead = ev.epollin ∧
    (updateStatus f d ev).waitingWrite = ev.epollout ∧
    (updateStatus f d ev).edgeTrigger = ev.epollet ∧
    (updateStatus f d ev).oneShot = ev.epolloneshot ∧
    (updateStatus f d ev).watching = f.watching ∧
    (updateStatus f d ev).edgeReported = f.edgeReported ∧
    (updateStatus f d ev).oneShotReported = f.oneShotReported ∧
    (updateStatus f d ev).readChanged = (f.readChanged || (f.readable != d.readable)) ∧
    (updateStatus f d ev).writeChanged = (f.writeChanged || (f.writable != d.writable)) :=
  ⟨rfl, rfl, rfl, rfl, rfl, rfl, rfl, rfl, rfl, rfl, rfl, rfl, rfl⟩

/-
  Per-watch trace model.

  The invariant claims about edge-triggered and one-shot reporting concern
  one watch across an arbitrary sequence of epoll operations.  Each epoll
  operation touches a given watch in one of a few ways, which we take as the
  alphabet of a per-watch transition system:

  * the watched descriptor's status changes (`descriptor_adjustStatus` in
    the descriptor layer; the epoll sees it at the next refresh);
  * some `_epoll_check` sweep reaches the watch and refreshes it via
    `_epollwatch_isReady` (the sweep may also stop before the watch, which
    is the absence of this step);
  * EPOLL_CTL_MOD stores a new subscription and clears the reported bits;
  * EPOLL_CTL_DEL clears the watching bit (lazy deletion);
  * `epoll_getEvents` reaches the watch (or does not, when the output
    buffer filled up first) and reports it when ready.
-/

/-- State of one watch together with its descriptor's current status. -/
structure WState where
  status : DescStatus
  watch : Watch
  deriving DecidableEq, Repr

/-- The ways one epoll operation can touch a given watch. -/
inductive WOp where
  | setStatus (st : DescStatus)
  | touch
  | mod (ev : EvMask)
  | del
  | collect (reached : Bool)
  deriving DecidableEq, Repr

/-- Whether the operation is an EPOLL_CTL_MOD on this watch. -/
def WOp.isMod : WOp → Bool
  | .mod _ => true
  | _ => false

/-- One step of the per-watch transition system, returning the event
reported for this watch, if any. -/
def wstep (s : WState) (op : WOp) : WState × Option Report :=
  match op with
  | .setStatus st => ({ s with status := st }, none)
  | .touch => ({ s with watch := refreshW s.status s.watch }, none)
  | .mod ev => ({ s with watch := modWatch s.watch ev }, none)
  | .del => ({ s with watch := delWatch s.watch }, none)
  | .collect true =>
      let r := collectWatch s.status s.watch
      ({ s with watch := r.1 }, r.2)
  | .collect false => (s, none)

/-- Run a sequence of per-watch steps, discarding the reports. -/
def wrun (s : WState) (ops : List WOp) : WState :=
  ops.foldl (fun s op => (wstep s op).1) s

/-- Whether the descriptor's readability stays constant across the
operation sequence, starting from the given status. -/
def readStable (st : DescStatus) : List WOp → Bool
  | [] => true
  | .setStatus st' :: rest => (st'.readable == st.readable) && readStable st' rest
  | _ :: rest => readStable st rest

/-- Whether the descriptor's writability stays constant across the
operation sequence, starting from the given status. -/
def writeStable (st : DescStatus) : List WOp → Bool
  | [] => true
  | .setStatus st' :: rest => (st'.writable == st.writable) && writeStable st' rest
  | _ :: rest => writeStable st rest


@[simp] theorem wrun_nil (s : WState) : wrun s [] = s := rfl

@[simp] theorem wrun_cons (s : WState) (op : WOp) (ops : List WOp) :
    wrun s (op :: ops) = wrun (wstep s op).1 ops := rfl

@[simp] theorem refreshW_event (d : DescStatus) (w : Watch) :
    (refreshW d w).event = w.event := rfl

@[simp] theorem refreshW_flags (d : DescStatus) (w : Watch) :
    (refreshW d w).flags = updateStatus w.flags d w.event := rfl

@[simp] theorem reportMark_event (w : Watch) : (reportMark w).event = w.event := rfl

@[simp] theorem reportMark_oneShotReported (w : Watch) :
    (reportMark w).flags.oneShotReported =
      (w.flags.oneShotReported || w.flags.oneShot) := rfl

@[simp] theorem reportMark_edgeReported (w : Watch) :
    (reportMark w).flags.edgeReported = (w.flags.edgeReported || w.flags.edgeTrigger) := rfl

@[simp] theorem reportMark_readChanged (w : Watch) :
    (reportMark w).flags.readChanged = false := rfl

@[simp] theorem reportMark_writeChanged (w : Watch) :
    (reportMark w).flags.writeChanged = false := rfl

@[simp] theorem reportMark_readable (w : Watch) :
    (reportMark w).flags.readable = w.flags.readable := rfl

@[simp] theorem reportMark_writable (w : Watch) :
    (reportMark w).flags.writable = w.flags.writable := rfl

@[simp] theorem reportMark_watching (w : Watch) :
    (reportMark w).flags.watching = w.flags.watching := rfl

theorem collectWatch_of_ready (d : DescStatus) (w : Watch)
    (h : isReadyFlags (refreshW d w).flags = true) :
    collectWatch d w = (reportMark (refreshW d w), some (mkReport (refreshW d w))) := by
  simp only [refreshW_flags] at h
  simp [collectWatch, refreshW, h]

theorem collectWatch_of_not_ready (d : DescStatus) (w : Watch)
    (h : isReadyFlags (refreshW d w).flags = false) :
    collectWatch d w = (refreshW d w, none) := by
  simp only [refreshW_flags] at h
  simp [collectWatch, refreshW, h]

/-- A watch with one-shot on and one-shot-reported set is never ready
(lines 288-291 of the source). -/
theorem isReadyFlags_oneShot_suppressed (g : WatchFlags)
    (h1 : g.oneShot = true) (h2 : g.oneShotReported = true) :
    isReadyFlags g = false := by
  rcases g with ⟨a, r, wr, rc, wb, ww, wc, cl, wa, et, er, os, osr⟩
  subst h1
  subst h2
  revert a r wr rc wb ww wc cl wa et er
  decide

/-- In edge-triggered mode, once edge-reported is set a ready verdict
needs a set change bit in a candidate direction. -/
theorem isReadyFlags_edge_needs_change (g : WatchFlags)
    (hr : isReadyFlags g = true) (het : g.edgeTrigger = true)
    (her : g.edgeReported = true) :
    (g.readable && g.waitingRead && g.readChanged) = true ∨
    (g.writable && g.waitingWrite && g.writeChanged) = true := by
  rcases g with ⟨a, r, wr, rc, wb, ww, wc, cl, wa, et, er, os, osr⟩
  subst het
  subst her
  revert hr
  revert a r wr rc wb ww wc cl wa os osr
  decide

/-- No per-watch operation changes the stored subscription except MOD. -/
theorem wstep_event_eq (s : WState) (op : WOp) (h : op.isMod = false) :
    ((wstep s op).1).watch.event = s.watch.event := by
  cases op with
  | setStatus st => rfl
  | touch => rfl
  | mod ev => simp [WOp.isMod] at h
  | del => rfl
  | collect reached =>
      cases reached with
      | false => rfl
      | true =>
          cases hready : isReadyFlags (refreshW s.status s.watch).flags with
          | false => simp [wstep, collectWatch_of_not_ready _ _ hready]
          | true => simp [wstep, collectWatch_of_ready _ _ hready]

theorem wrun_event_eq (ops : List WOp) (s : WState)
    (h : ∀ op ∈ ops, op.isMod = false) :
    (wrun s ops).watch.event = s.watch.event := by
  induction ops generalizing s with
  | nil => rfl
  | cons op rest ih =>
      rw [wrun_cons, ih _ (fun o ho => h o (List.mem_cons_of_mem _ ho)),
        wstep_event_eq s op (h op (List.mem_cons_self _ _))]

/-- One-shot invariant: the subscription still has one-shot on, and
one-shot-reported is set. -/
def OSInv (s : WState) : Prop :=
  s.watch.event.epolloneshot = true ∧ s.watch.flags.oneShotReported = true

theorem osinv_step (s : WState) (op : WOp) (h : op.isMod = false)
    (hi : OSInv s) : OSInv (wstep s op).1 := by
  obtain ⟨h1, h2⟩ := hi
  cases op with
  | setStatus st => exact ⟨h1, h2⟩
  | touch => exact ⟨h1, by simp [wstep, h2]⟩
  | mod ev => simp [WOp.isMod] at h
  | del => exact ⟨h1, h2⟩
  | collect reached =>
      cases reached with
      | false => exact ⟨h1, h2⟩
      | true =>
          have hready : isReadyFlags (refreshW s.status s.watch).flags = false :=
            isReadyFlags_oneShot_suppressed _ (by simp [h1]) (by simp [h2])
          rw [wstep]
          rw [collectWatch_of_not_ready _ _ hready]
          exact ⟨h1, by simp [h2]⟩

theorem osinv_run (ops : List WOp) (s : WState)
    (h : ∀ op ∈ ops, op.isMod = false) (hi : OSInv s) : OSInv (wrun s ops) := by
  induction ops generalizing s with
  | nil => exact hi
  | cons op rest ih =>
      rw [wrun_cons]
      exact ih _ (fun o ho => h o (List.mem_cons_of_mem _ ho))
        (osinv_step s op (h op (List.mem_cons_self _ _)) hi)

/-- C3: once a one-shot watch has been reported by a collect (setting
one-shot-reported), no later collect reports it again as long as no MOD
intervenes. -/
theorem oneShot_no_rereport (s : WState) (ops : List WOp) (r : Report) (b : Bool)
    (hos : s.watch.event.epolloneshot = true)
    (h1 : (wstep s (WOp.collect true)).2 = some r)
    (hops : ∀ op ∈ ops, op.isMod = false) :
    (wstep (wrun (wstep s (WOp.collect true)).1 ops) (WOp.collect b)).2 = none := by
  cases hready : isReadyFlags (refreshW s.status s.watch).flags with
  | false =>
      rw [wstep, collectWatch_of_not_ready _ _ hready] at h1
      exact absurd h1 (by simp)
  | true =>
      have hs1 : OSInv (wstep s (WOp.collect true)).1 := by
        rw [wstep, collectWatch_of_ready _ _ hready]
        exact ⟨hos, by simp [hos]⟩
      have hs2 : OSInv (wrun (wstep s (WOp.collect true)).1 ops) := osinv_run ops _ hops hs1
      cases b with
      | false => rfl
      | true =>
          have hnr : isReadyFlags
              (refreshW (wrun (wstep s (WOp.collect true)).1 ops).status
                (wrun (wstep s (WOp.collect true)).1 ops).watch).flags = false :=
            isReadyFlags_oneShot_suppressed _ (by simp [hs2.1]) (by simp [hs2.2])
          rw [wstep, collectWatch_of_not_ready _ _ hnr]

@[simp] theorem readStable_nil (st : DescStatus) : readStable st [] = true := rfl

@[simp] theorem readStable_setStatus (st st' : DescStatus) (rest : List WOp) :
    readStable st (WOp.setStatus st' :: rest) =
      ((st'.readable == st.readable) && readStable st' rest) := rfl

@[simp] theorem readStable_touch (st : DescStatus) (rest : List WOp) :
    readStable st (WOp.touch :: rest) = readStable st rest := rfl

@[simp] theorem readStable_mod (st : DescStatus) (ev : EvMask) (rest : List WOp) :
    readStable st (WOp.mod ev :: rest) = readStable st rest := rfl

@[simp] theorem readStable_del (st : DescStatus) (rest : List WOp) :
    readStable st (WOp.del :: rest) = readStable st rest := rfl

@[simp] theorem readStable_collect (st : DescStatus) (b : Bool) (rest : List WOp) :
    readStable st (WOp.collect b :: rest) = readStable st rest := rfl

@[simp] theorem writeStable_nil (st : DescStatus) : writeStable st [] = true := rfl

@[simp] theorem writeStable_setStatus (st st' : DescStatus) (rest : List WOp) :
    writeStable st (WOp.setStatus st' :: rest) =
      ((st'.writable == st.writable) && writeStable st' rest) := rfl

@[simp] theorem writeStable_touch (st : DescStatus) (rest : List WOp) :
    writeStable st (WOp.touch :: rest) = writeStable st rest := rfl

@[simp] theorem writeStable_mod (st : DescStatus) (ev : EvMask) (rest : List WOp) :
    writeStable st (WOp.mod ev :: rest) = writeStable st rest := rfl

@[simp] theorem writeStable_del (st : DescStatus) (rest : List WOp) :
    writeStable st (WOp.del :: rest) = writeStable st rest := rfl

@[simp] theorem writeStable_collect (st : DescStatus) (b : Bool) (rest : List WOp) :
    writeStable st (WOp.collect b :: rest) = writeStable st rest := rfl

/-- Read-direction invariant after a collection: the change bit is clear
and the cached readability agrees with the descriptor's. -/
def InvR (s : WState) : Prop :=
  s.watch.flags.readChanged = false ∧ s.watch.flags.readable = s.status.readable

/-- Write-direction invariant after a collection. -/
def InvW (s : WState) : Prop :=
  s.watch.flags.writeChanged = false ∧ s.watch.flags.writable = s.status.writable

theorem invR_run (ops : List WOp) (s : WState)
    (hstable : readStable s.status ops = true) (hi : InvR s) : InvR (wrun s ops) := by
  induction ops generalizing s with
  | nil => exact hi
  | cons op rest ih =>
      obtain ⟨h1, h2⟩ := hi
      rw [wrun_cons]
      cases op with
      | setStatus st =>
          rw [readStable_setStatus, Bool.and_eq_true, beq_iff_eq] at hstable
          exact ih { s with status := st } hstable.2 ⟨h1, by rw [h2, ← hstable.1]⟩
      | touch =>
          rw [readStable_touch] at hstable
          refine ih _ hstable ⟨?_, ?_⟩ <;> simp [wstep, h1, h2]
      | mod ev =>
          rw [readStable_mod] at hstable
          exact ih _ hstable ⟨h1, h2⟩
      | del =>
          rw [readStable_del] at hstable
          exact ih _ hstable ⟨h1, h2⟩
      | collect reached =>
          rw [readStable_collect] at hstable
          cases reached with
          | false => exact ih _ hstable ⟨h1, h2⟩
          | true =>
              cases hready : isReadyFlags (refreshW s.status s.watch).flags with
              | false =>
                  rw [wstep, collectWatch_of_not_ready _ _ hready]
                  refine ih _ hstable ⟨?_, ?_⟩ <;> simp [h1, h2]
              | true =>
                  rw [wstep, collectWatch_of_ready _ _ hready]
                  refine ih _ hstable ⟨?_, ?_⟩ <;> simp [h1, h2]

theorem invW_run (ops : List WOp) (s : WState)
    (hstable : writeStable s.status ops = true) (hi : InvW s) : InvW (wrun s ops) := by
  induction ops generalizing s with
  | nil => exact hi
  | cons op rest ih =>
      obtain ⟨h1, h2⟩ := hi
      rw [wrun_cons]
      cases op with
      | setStatus st =>
          rw [writeStable_setStatus, Bool.and_eq_true, beq_iff_eq] at hstable
          exact ih { s with status := st } hstable.2 ⟨h1, by rw [h2, ← hstable.1]⟩
      | touch =>
          rw [writeStable_touch] at hstable
          refine ih _ hstable ⟨?_, ?_⟩ <;> simp [wstep, h1, h2]
      | mod ev =>
          rw [writeStable_mod] at hstable
          exact ih _ hstable ⟨h1, h2⟩
      | del =>
          rw [writeStable_del] at hstable
          exact ih _ hstable ⟨h1, h2⟩
      | collect reached =>
          rw [writeStable_collect] at hstable
          cases reached with
          | false => exact ih _ hstable ⟨h1, h2⟩
          | true =>
              cases hready : isReadyFlags (refreshW s.status s.watch).flags with
              | false =>
                  rw [wstep, collectWatch_of_not_ready _ _ hready]
                  refine ih _ hstable ⟨?_, ?_⟩ <;> simp [h1, h2]
              | true =>
                  rw [wstep, collectWatch_of_ready _ _ hready]
                  refine ih _ hstable ⟨?_, ?_⟩ <;> simp [h1, h2]

/-- Edge-reported stays set across every per-watch operation except MOD. -/
theorem edgeReported_run (ops : List WOp) (s : WState)
    (h : ∀ op ∈ ops, op.isMod = false)
    (hi : s.watch.flags.edgeReported = true) :
    (wrun s ops).watch.flags.edgeReported = true := by
  induction ops generalizing s with
  | nil => exact hi
  | cons op rest ih =>
      rw [wrun_cons]
      refine ih _ (fun o ho => h o (List.mem_cons_of_mem _ ho)) ?_
      cases op with
      | setStatus st => exact hi
      | touch => simp [wstep, hi]
      | mod ev => simp [WOp.isMod] at h
      | del => exact hi
      | collect reached =>
          cases reached with
          | false => exact hi
          | true =>
              cases hready : isReadyFlags (refreshW s.status s.watch).flags with
              | false =>
                  rw [wstep, collectWatch_of_not_ready _ _ hready]
                  simp [hi]
              | true =>
                  rw [wstep, collectWatch_of_ready _ _ hready]
                  simp [hi]

/-- C2: a watch subscribed in edge-triggered mode that is reported by one
collect and again by a later collect, with no MOD in between, must have
seen the readiness of a direction reported by the second collect change in
between: either the second event carries EPOLLIN and readability changed,
or it carries EPOLLOUT and writability changed. -/
theorem edgeTriggered_no_rereport (s : WState) (ops : List WOp) (r r' : Report)
    (het : s.watch.event.epollet = true)
    (h1 : (wstep s (WOp.collect true)).2 = some r)
    (hops : ∀ op ∈ ops, op.isMod = false)
    (h2 : (wstep (wrun (wstep s (WOp.collect true)).1 ops) (WOp.collect true)).2 = some r') :
    (r'.epollin = true ∧ readStable (wstep s (WOp.collect true)).1.status ops = false) ∨
    (r'.epollout = true ∧ writeStable (wstep s (WOp.collect true)).1.status ops = false) := by
  cases hready : isReadyFlags (refreshW s.status s.watch).flags with
  | false =>
      rw [wstep, collectWatch_of_not_ready _ _ hready] at h1
      exact absurd h1 (by simp)
  | true =>
      set s1 : WState := (wstep s (WOp.collect true)).1 with hs1def
      have hs1 : s1 = { s with watch := reportMark (refreshW s.status s.watch) } := by
        rw [hs1def, wstep, collectWatch_of_ready _ _ hready]
      set s2 : WState := wrun s1 ops with hs2def
      have hev2 : s2.watch.event = s.watch.event := by
        rw [hs2def, wrun_event_eq ops s1 hops, hs1]
        simp
      have her2 : s2.watch.flags.edgeReported = true := by
        rw [hs2def]
        refine edgeReported_run ops s1 hops ?_
        rw [hs1]
        simp [het]
      cases hready2 : isReadyFlags (refreshW s2.status s2.watch).flags with
      | false =>
          rw [wstep, collectWatch_of_not_ready _ _ hready2] at h2
          exact absurd h2 (by simp)
      | true =>
          have hr' : r' = mkReport (refreshW s2.status s2.watch) := by
            rw [wstep, collectWatch_of_ready _ _ hready2] at h2
            exact (Option.some_inj.mp h2).symm
          have hchange := isReadyFlags_edge_needs_change (refreshW s2.status s2.watch).flags
            hready2 (by simp [hev2, het]) (by simp [her2])
          have hstat1 : s1.status = s.status := by rw [hs1]
          rcases hchange with hc | hc
          · left
            rw [Bool.and_eq_true, Bool.and_eq_true] at hc
            constructor
            · rw [hr']
              simp only [refreshW_flags, updateStatus_readable, updateStatus_waitingRead] at hc
              simp [mkReport, hc.1.1, hc.1.2]
            · rcases hstable : readStable s1.status ops with _ | _
              · rfl
              · exfalso
                have hir : InvR s2 := by
                  rw [hs2def]
                  refine invR_run ops s1 hstable ?_
                  rw [hs1]
                  constructor
                  · simp
                  · simp
                have : (refreshW s2.status s2.watch).flags.readChanged = false := by
                  simp [hir.1, hir.2]
                rw [this] at hc
                exact absurd hc.2 (by simp)
          · right
            rw [Bool.and_eq_true, Bool.and_eq_true] at hc
            constructor
            · rw [hr']
              simp only [refreshW_flags, updateStatus_writable, updateStatus_waitingWrite] at hc
              simp [mkReport, hc.1.1, hc.1.2]
            · rcases hstable : writeStable s1.status ops with _ | _
              · rfl
              · exfalso
                have hiw : InvW s2 := by
                  rw [hs2def]
                  refine invW_run ops s1 hstable ?_
                  rw [hs1]
                  constructor
                  · simp
                  · simp
                have : (refreshW s2.status s2.watch).flags.writeChanged = false := by
                  simp [hiw.1, hiw.2]
                rw [this] at hc
                exact absurd hc.2 (by simp)

/-
  Epoll-level model.

  The watch table (a GHashTable keyed by the descriptor handle) is an
  association list in insertion order; GHashTable iteration order is
  unspecified, and the list order stands for whatever order the table
  iterates in (it is stable while the table is not mutated).  Descriptor
  statuses live in an environment `descStatus : Nat -> DescStatus` standing
  for the descriptor layer.  The OS multiplexer oracle
  (`_epoll_isReadyOS`), `process_wantsNotify` and the success of
  `worker_scheduleTask` are external inputs bundled in `Oracle`.  `pending`
  counts notify tasks sitting in the scheduler queue and `finalized` counts
  executions of `_epoll_close` (listener teardown plus
  `host_closeDescriptor`), so that scheduling and finalization are
  observable in the state.
-/

/-- The epoll flag set (enum _EpollFlags). -/
structure EFlags where
  scheduled : Bool
  notifying : Bool
  closed : Bool
  deriving DecidableEq, Repr

/-- Externally visible side effects of one operation. -/
inductive Effect where
  | checked
  | statusReadable (b : Bool)
  | taskScheduled
  | listenerAdded (h : Nat)
  | listenerRemoved (h : Nat)
  | osCalled
  deriving DecidableEq, Repr

/-- The Epoll instance together with its environment. -/
structure Epoll where
  watching : List (Nat × Watch)
  flags : EFlags
  readable : Bool
  descStatus : Nat → DescStatus
  pending : Nat
  finalized : Nat

/-- External answers the epoll core consults: `_epoll_isReadyOS`,
`process_wantsNotify`, and whether `worker_scheduleTask` succeeds. -/
structure Oracle where
  osReady : Bool
  wantsNotify : Bool
  scheduleOk : Bool
  deriving DecidableEq, Repr

/-- `g_hash_table_lookup` on the watch table. -/
def lookupW (h : Nat) : List (Nat × Watch) → Option Watch
  | [] => none
  | (k, w) :: rest => if k = h then some w else lookupW h rest

/-- `g_hash_table_replace` when the key is absent (the ADD path). -/
def insertW (h : Nat) (w : Watch) (ws : List (Nat × Watch)) : List (Nat × Watch) :=
  ws ++ [(h, w)]

/-- In-place update of the watch stored under a handle (the MOD path works
on the looked-up watch object). -/
def replaceW (h : Nat) (w : Watch) : List (Nat × Watch) → List (Nat × Watch)
  | [] => []
  | (k, w') :: rest => if k = h then (k, w) :: rest else (k, w') :: replaceW h w rest

/-- `g_hash_table_remove` (the DEL path). -/
def removeW (h : Nat) : List (Nat × Watch) → List (Nat × Watch)
  | [] => []
  | (k, w') :: rest => if k = h then rest else (k, w') :: removeW h rest

/-- The sweep of `_epoll_check` (lines 340-352): refresh each watch via
`_epollwatch_isReady` and stop at the first ready one. -/
def checkSweep (ds : Nat → DescStatus) : List (Nat × Watch) → List (Nat × Watch) × Bool
  | [] => ([], false)
  | (h, w) :: rest =>
      let w1 := refreshW (ds h) w
      if isReadyFlags w1.flags then ((h, w1) :: rest, true)
      else
        let r := checkSweep ds rest
        ((h, w1) :: r.1, r.2)

/-- `_epoll_check`: skip when closed or notifying; otherwise sweep the
watch table, fall back to the OS oracle, set the epoll's own readable
status accordingly, and schedule a notify task when ready, none is
scheduled yet, and the process wants notifications. -/
def epoll_check (o : Oracle) (e : Epoll) : Epoll × List Effect :=
  if e.flags.closed || e.flags.notifying then (e, [])
  else
    let s := checkSweep e.descStatus e.watching
    if s.2 || o.osReady then
      let e1 := { e with watching := s.1, readable := true }
      if !e.flags.scheduled && o.wantsNotify then
        if o.scheduleOk then
          ({ e1 with flags := { e1.flags with scheduled := true },
                     pending := e1.pending + 1 },
           [Effect.checked, Effect.statusReadable true, Effect.taskScheduled])
        else (e1, [Effect.checked, Effect.statusReadable true])
      else (e1, [Effect.checked, Effect.statusReadable true])
    else
      ({ e with watching := s.1, readable := false },
       [Effect.checked, Effect.statusReadable false])

/-- The operation argument of `epoll_control`. -/
inductive CtlOp where
  | add
  | mod
  | del
  | other (n : Nat)
  deriving DecidableEq, Repr

/-- errno EEXIST. -/
def EEXIST : Nat := 17

/-- errno ENOENT. -/
def ENOENT : Nat := 2

/-- `epoll_control`: dispatch on the operation after looking the handle up
in the watch table.  ADD of a registered handle returns EEXIST; MOD and DEL
of an unregistered handle return ENOENT; an unrecognized operation is
logged and ignored; every other path returns 0, after mutating the table
and (for ADD and MOD) running `_epoll_check`. -/
def epoll_control (o : Oracle) (e : Epoll) (op : CtlOp) (h : Nat) (ev : EvMask) :
    Nat × Epoll × List Effect :=
  match op, lookupW h e.watching with
  | .add, some _ => (EEXIST, e, [])
  | .add, none =>
      let w := newWatch ev
      let e1 := { e with watching := insertW h w e.watching }
      let c := epoll_check o e1
      (0, c.1, Effect.listenerAdded h :: c.2)
  | .mod, none => (ENOENT, e, [])
  | .mod, some w =>
      let e1 := { e with watching := replaceW h (modWatch w ev) e.watching }
      let c := epoll_check o e1
      (0, c.1, c.2)
  | .del, none => (ENOENT, e, [])
  | .del, some w =>
      let e1 := { e with watching := removeW h (replaceW h (delWatch w) e.watching) }
      (0, e1, [Effect.listenerRemoved h])
  | .other _, _ => (0, e, [])

/-- The sweep of `epoll_getEvents` (lines 489-527): refresh each watch,
report the ready ones, and stop once the output buffer is full. -/
def collectSweep (ds : Nat → DescStatus) :
    List (Nat × Watch) → Nat → List (Nat × Watch) × List Report
  | ws, 0 => (ws, [])
  | [], _ + 1 => ([], [])
  | (h, w) :: rest, space + 1 =>
      match collectWatch (ds h) w with
      | (w1, none) =>
          let r := collectSweep ds rest (space + 1)
          ((h, w1) :: r.1, r.2)
      | (w1, some rep) =>
          let r := collectSweep ds rest space
          ((h, w1) :: r.1, rep :: r.2)

/-- `epoll_getEvents`: sweep the watch table into the output buffer; if
space remains, fetch OS events with a zero-timeout wait (`osWait` stands
for `epoll_wait` on the OS descriptor and is consulted only then); finally
run `_epoll_check`.  Returns the final state, the events written, and the
effects. -/
def epoll_getEvents (o : Oracle) (osWait : Nat → List Report) (e : Epoll) (cap : Nat) :
    Epoll × List Report × List Effect :=
  let s := collectSweep e.descStatus e.watching cap
  let space := cap - s.2.length
  let osPart : List Report × List Effect :=
    if space = 0 then ([], []) else (osWait space, [Effect.osCalled])
  let e1 := { e with watching := s.1 }
  let c := epoll_check o e1
  (c.1, s.2 ++ osPart.1, osPart.2 ++ c.2)

/-- `_epoll_close`: tear down the watch listeners and ask the host to
close the descriptor; observable here as one finalization. -/
def epoll_closeNow (e : Epoll) : Epoll :=
  { e with finalized := e.finalized + 1 }

/-- `_epoll_tryToClose`: mark closed; finalize immediately unless a notify
task is scheduled. -/
def epoll_tryToClose (e : Epoll) : Epoll :=
  let e1 := { e with flags := { e.flags with closed := true } }
  if e1.flags.scheduled then e1 else epoll_closeNow e1

/-- The sweep of `_epoll_tryNotify` (lines 613-624): refresh every watch
(no early exit) and remember whether any is ready. -/
def notifySweep (ds : Nat → DescStatus) : List (Nat × Watch) → List (Nat × Watch) × Bool
  | [] => ([], false)
  | (h, w) :: rest =>
      let w1 := refreshW (ds h) w
      let r := notifySweep ds rest
      ((h, w1) :: r.1, isReadyFlags w1.flags || r.2)

/-- Application-level operations: everything the application or the
descriptor layer can do to the epoll between scheduler turns, and also
everything the continuation run by the notify task can do re-entrantly. -/
inductive AOp where
  | control (o : Oracle) (op : CtlOp) (h : Nat) (ev : EvMask)
  | collect (o : Oracle) (osWait : Nat → List Report) (cap : Nat)
  | close
  | setStatus (o : Oracle) (h : Nat) (st : DescStatus)
  | check (o : Oracle)

/-- Point update of the descriptor-status environment. -/
def updEnv (f : Nat → DescStatus) (h : Nat) (st : DescStatus) : Nat → DescStatus :=
  fun k => if k = h then st else f k

/-- One application-level step.  `setStatus` is `descriptor_adjustStatus`
on a watched descriptor followed by the `epoll_descriptorStatusChanged`
callback, which runs `_epoll_check`. -/
def astep (e : Epoll) (a : AOp) : Epoll :=
  match a with
  | .control o op h ev => (epoll_control o e op h ev).2.1
  | .collect o osWait cap => (epoll_getEvents o osWait e cap).1
  | .close => epoll_tryToClose e
  | .setStatus o h st => (epoll_check o { e with descStatus := updEnv e.descStatus h st }).1
  | .check o => (epoll_check o e).1

/-- Run an application-level continuation. -/
def runA (e : Epoll) (as : List AOp) : Epoll :=
  as.foldl astep e

/-- `_epoll_tryNotify`, fired from the scheduler with the task already
dequeued: clear `scheduled`; if closed or the process died, finalize and
stop; otherwise re-evaluate readiness (full sweep, then the OS oracle) and,
when ready, run the application continuation under `notifying` and re-run
`_epoll_check` afterwards. -/
def epoll_tryNotify (pr : Bool) (o : Oracle) (cont : List AOp) (e : Epoll) : Epoll :=
  let e1 := { e with flags := { e.flags with scheduled := false } }
  if e1.flags.closed || !pr then epoll_closeNow e1
  else
    let s := notifySweep e1.descStatus e1.watching
    let e2 := { e1 with watching := s.1 }
    if s.2 || o.osReady then
      let e3 := { e2 with flags := { e2.flags with notifying := true } }
      let e4 := runA e3 cont
      let e5 := { e4 with flags := { e4.flags with notifying := false } }
      (epoll_check o e5).1
    else e2

/-- Top-level operations: application steps, and the scheduler firing a
pending notify task (a no-op when no task is in the queue). -/
inductive EOp where
  | app (a : AOp)
  | taskFire (pr : Bool) (o : Oracle) (cont : List AOp)

/-- One top-level step. -/
def estep (e : Epoll) (op : EOp) : Epoll :=
  match op with
  | .app a => astep e a
  | .taskFire pr o cont =>
      if e.pending = 0 then e
      else epoll_tryNotify pr o cont { e with pending := e.pending - 1 }

/-- Run a top-level trace. -/
def erun (e : Epoll) (ops : List EOp) : Epoll :=
  ops.foldl estep e

/-- C5: `epoll_control` returns EEXIST exactly for ADD on a registered
handle, ENOENT exactly for MOD or DEL on an unregistered handle, and 0 in
every other case (including an unrecognized operation, which is ignored). -/
theorem epoll_control_result (o : Oracle) (e : Epoll) (op : CtlOp) (h : Nat) (ev : EvMask) :
    ((epoll_control o e op h ev).1 = EEXIST ↔
        op = CtlOp.add ∧ (lookupW h e.watching).isSome = true) ∧
    ((epoll_control o e op h ev).1 = ENOENT ↔
        (op = CtlOp.mod ∨ op = CtlOp.del) ∧ (lookupW h e.watching).isSome = false) ∧
    ((epoll_control o e op h ev).1 = 0 ∨ (epoll_control o e op h ev).1 = EEXIST ∨
        (epoll_control o e op h ev).1 = ENOENT) := by
  cases op <;> cases hl : lookupW h e.watching <;>
    simp [epoll_control, hl, EEXIST, ENOENT]

/-- C10: when `epoll_control` fails with EEXIST or ENOENT it has taken the
early-return path: the state (watch table, every watch's flags and
subscription, the epoll flag set, readable status, pending tasks) is
untouched and no effect (no check, no status adjustment, no scheduling) is
produced. -/
theorem epoll_control_error_atomic (o : Oracle) (e : Epoll) (op : CtlOp) (h : Nat)
    (ev : EvMask)
    (hr : (epoll_control o e op h ev).1 = EEXIST ∨ (epoll_control o e op h ev).1 = ENOENT) :
    (epoll_control o e op h ev).2.1 = e ∧ (epoll_control o e op h ev).2.2 = [] := by
  cases op <;> cases hl : lookupW h e.watching <;>
    simp [epoll_control, hl, EEXIST, ENOENT] at hr ⊢

/-- A quiescent descriptor status for concrete scenarios. -/
def dsIdle : DescStatus := { active := true, readable := false, writable := false, closed := false }

/-- A readable-and-active descriptor status for concrete scenarios. -/
def dsReady : DescStatus := { active := true, readable := true, writable := false, closed := false }

/-- A plain level-triggered read subscription. -/
def evPlain : EvMask :=
  { epollin := true, epollout := false, epollet := false, epolloneshot := false, cookie := 5 }

/-- A quiet oracle: OS not ready, process does not want notifications. -/
def oracleQuiet : Oracle := { osReady := false, wantsNotify := false, scheduleOk := false }

/-- A concrete epoll with one registered watch on handle 1. -/
def epollOneWatch : Epoll :=
  { watching := [(1, newWatch evPlain)]
    flags := { scheduled := false, notifying := false, closed := false }
    readable := false
    descStatus := fun _ => dsIdle
    pending := 0
    finalized := 0 }

/-- Witness for C10: ADD of the already-registered handle 1 returns EEXIST
and leaves the state unchanged with no effects. -/
theorem epoll_control_error_atomic_witness :
    (epoll_control oracleQuiet epollOneWatch CtlOp.add 1 evPlain).2.1 = epollOneWatch ∧
    (epoll_control oracleQuiet epollOneWatch CtlOp.add 1 evPlain).2.2 = [] :=
  epoll_control_error_atomic oracleQuiet epollOneWatch CtlOp.add 1 evPlain (Or.inl rfl)

theorem collectSweep_zero (ds : Nat → DescStatus) (ws : List (Nat × Watch)) :
    collectSweep ds ws 0 = (ws, []) := by
  cases ws <;> rfl

theorem collectSweep_nil (ds : Nat → DescStatus) (cap : Nat) :
    collectSweep ds [] cap = ([], []) := by
  cases cap <;> rfl

theorem collectSweep_cons_none (ds : Nat → DescStatus) (h : Nat) (w w1 : Watch)
    (rest : List (Nat × Watch)) (space : Nat)
    (hcw : collectWatch (ds h) w = (w1, none)) :
    collectSweep ds ((h, w) :: rest) (space + 1) =
      ((h, w1) :: (collectSweep ds rest (space + 1)).1,
        (collectSweep ds rest (space + 1)).2) := by
  simp [collectSweep, hcw]

theorem collectSweep_cons_some (ds : Nat → DescStatus) (h : Nat) (w w1 : Watch)
    (rep : Report) (rest : List (Nat × Watch)) (space : Nat)
    (hcw : collectWatch (ds h) w = (w1, some rep)) :
    collectSweep ds ((h, w) :: rest) (space + 1) =
      ((h, w1) :: (collectSweep ds rest space).1,
        rep :: (collectSweep ds rest space).2) := by
  simp [collectSweep, hcw]

/-- The virtual sweep never produces more reports than the capacity. -/
theorem collectSweep_length_le (ds : Nat → DescStatus) (ws : List (Nat × Watch)) :
    ∀ cap : Nat, (collectSweep ds ws cap).2.length ≤ cap := by
  induction ws with
  | nil => intro cap; simp [collectSweep_nil]
  | cons p rest ih =>
      intro cap
      obtain ⟨h, w⟩ := p
      cases cap with
      | zero => simp [collectSweep_zero]
      | succ space =>
          rcases hcw : collectWatch (ds h) w with ⟨w1, orep⟩
          cases orep with
          | none =>
              rw [collectSweep_cons_none ds h w w1 rest space hcw]
              exact ih (space + 1)
          | some rep =>
              rw [collectSweep_cons_some ds h w w1 rep rest space hcw]
              simpa using Nat.succ_le_succ (ih space)

/-- `_epoll_check` never performs the OS zero-timeout wait that belongs to
collection (its OS consultation is the separate readiness oracle). -/
theorem osCalled_not_mem_check (o : Oracle) (e : Epoll) :
    Effect.osCalled ∉ (epoll_check o e).2 := by
  by_cases hg : (e.flags.closed || e.flags.notifying) = true
  · simp [epoll_check, hg]
  · by_cases hr : ((checkSweep e.descStatus e.watching).2 || o.osReady) = true
    · by_cases hs : (!e.flags.scheduled && o.wantsNotify) = true
      · by_cases hk : o.scheduleOk = true
        · simp [epoll_check, hg, hr, hs, hk]
        · simp [epoll_check, hg, hr, hs, hk]
      · simp [epoll_check, hg, hr, hs]
    · simp [epoll_check, hg, hr]

/-- Unfolding of `epoll_getEvents` into its components. -/
theorem epoll_getEvents_eq (o : Oracle) (osWait : Nat → List Report) (e : Epoll) (cap : Nat) :
    epoll_getEvents o osWait e cap =
      ((epoll_check o { e with watching := (collectSweep e.descStatus e.watching cap).1 }).1,
       (collectSweep e.descStatus e.watching cap).2 ++
         (if cap - (collectSweep e.descStatus e.watching cap).2.length = 0 then []
          else osWait (cap - (collectSweep e.descStatus e.watching cap).2.length)),
       (if cap - (collectSweep e.descStatus e.watching cap).2.length = 0 then ([] : List Effect)
        else [Effect.osCalled]) ++
         (epoll_check o { e with watching := (collectSweep e.descStatus e.watching cap).1 }).2) := by
  by_cases hsp : cap - (collectSweep e.descStatus e.watching cap).2.length = 0 <;>
    simp [epoll_getEvents, hsp]

/-- C6: collect writes at most `capacity` events; and when the virtual
sweep already filled the buffer — in particular whenever `capacity = 0` —
the OS wait is skipped, so no OS call happens and no OS events are
appended. -/
theorem epoll_getEvents_capacity (o : Oracle) (osWait : Nat → List Report) (e : Epoll)
    (cap : Nat) (hos : ∀ n, (osWait n).length ≤ n) :
    (epoll_getEvents o osWait e cap).2.1.length ≤ cap ∧
    (cap = 0 → (epoll_getEvents o osWait e cap).2.1 = [] ∧
      Effect.osCalled ∉ (epoll_getEvents o osWait e cap).2.2) ∧
    ((collectSweep e.descStatus e.watching cap).2.length = cap →
      Effect.osCalled ∉ (epoll_getEvents o osWait e cap).2.2) := by
  have hlen := collectSweep_length_le e.descStatus e.watching cap
  rw [epoll_getEvents_eq]
  refine ⟨?_, ?_, ?_⟩
  · by_cases hsp : cap - (collectSweep e.descStatus e.watching cap).2.length = 0
    · simpa [hsp] using hlen
    · have h2 := hos (cap - (collectSweep e.descStatus e.watching cap).2.length)
      simp only [hsp, if_neg, List.length_append, ite_false]
      omega
  · intro hcap
    subst hcap
    simp only [collectSweep_zero, List.length_nil, Nat.zero_sub, if_pos rfl,
      List.append_nil, List.nil_append]
    exact ⟨rfl, osCalled_not_mem_check o _⟩
  · intro hfull
    simp only [hfull, Nat.sub_self, if_pos rfl, List.nil_append]
    exact osCalled_not_mem_check o _

/-- Witness for C6: collecting with capacity 0 on a concrete epoll with a
ready watch yields no events and no OS call. -/
theorem epoll_getEvents_capacity_witness :
    (epoll_getEvents oracleQuiet (fun _ => []) epollOneWatch 0).2.1.length ≤ 0 ∧
    (0 = 0 → (epoll_getEvents oracleQuiet (fun _ => []) epollOneWatch 0).2.1 = [] ∧
      Effect.osCalled ∉ (epoll_getEvents oracleQuiet (fun _ => []) epollOneWatch 0).2.2) ∧
    ((collectSweep epollOneWatch.descStatus epollOneWatch.watching 0).2.length = 0 →
      Effect.osCalled ∉ (epoll_getEvents oracleQuiet (fun _ => []) epollOneWatch 0).2.2) :=
  epoll_getEvents_capacity oracleQuiet (fun _ => []) epollOneWatch 0 (fun n => Nat.zero_le n)

/-- For a level-triggered, non-one-shot flag vector, readiness ignores the
change and reported bits. -/
theorem isReadyFlags_lt (g : WatchFlags) (h1 : g.edgeTrigger = false) (h2 : g.oneShot = false) :
    isReadyFlags g =
      (!g.closed && g.active && g.watching &&
        ((g.readable && g.waitingRead) || (g.writable && g.waitingWrite))) := by
  rcases g with ⟨a, r, wr, rc, wb, ww, wc, cl, wa, et, er, os, osr⟩
  subst h1
  subst h2
  revert a r wr rc wb ww wc cl wa er osr
  decide

/-- `w'` is an evolved copy of `w`: same stored subscription, same lazy
watching bit (the two inputs a collect decision can depend on besides the
descriptor status, once the mode is level-triggered). -/
def SimW (w w' : Watch) : Prop :=
  w'.event = w.event ∧ w'.flags.watching = w.flags.watching

theorem simW_refl (w : Watch) : SimW w w := ⟨rfl, rfl⟩

theorem simW_refreshW (d : DescStatus) (w w' : Watch) (hs : SimW w w') :
    SimW w (refreshW d w') := ⟨hs.1, by simp [hs.2]⟩

theorem simW_reportMark (w w' : Watch) (hs : SimW w w') :
    SimW w (reportMark w') := ⟨hs.1, by simp [hs.2]⟩

theorem simW_collectWatch (d : DescStatus) (w w' : Watch) (hs : SimW w w') :
    SimW w (collectWatch d w').1 := by
  cases hh : isReadyFlags (refreshW d w').flags with
  | false =>
      rw [collectWatch_of_not_ready _ _ hh]
      exact simW_refreshW d w w' hs
  | true =>
      rw [collectWatch_of_ready _ _ hh]
      exact simW_reportMark _ _ (simW_refreshW d w w' hs)

/-- For a level-triggered watch, an evolved copy makes the same report
decision as the original. -/
theorem collectWatch_lt_eq (d : DescStatus) (w w' : Watch) (hs : SimW w w')
    (h1 : w.event.epollet = false) (h2 : w.event.epolloneshot = false) :
    (collectWatch d w').2 = (collectWatch d w).2 := by
  obtain ⟨hev, hwa⟩ := hs
  have hr' : isReadyFlags (refreshW d w').flags = isReadyFlags (refreshW d w).flags := by
    rw [refreshW_flags, refreshW_flags,
      isReadyFlags_lt _ (by simp [hev, h1]) (by simp [hev, h2]),
      isReadyFlags_lt _ (by simp [h1]) (by simp [h2])]
    simp [hev, hwa]
  have hrep : mkReport (refreshW d w') = mkReport (refreshW d w) := by
    simp [mkReport, hev]
  cases hh : isReadyFlags (refreshW d w).flags with
  | false => rw [collectWatch_of_not_ready _ _ (hr'.trans hh),
      collectWatch_of_not_ready _ _ hh]
  | true => rw [collectWatch_of_ready _ _ (hr'.trans hh),
      collectWatch_of_ready _ _ hh, hrep]

/-- Pointwise evolution of a watch table: same handles in the same order,
each watch an evolved copy. -/
def SimL (ws ws' : List (Nat × Watch)) : Prop :=
  List.Forall₂ (fun p q => p.1 = q.1 ∧ SimW p.2 q.2) ws ws'

theorem simL_refl (ws : List (Nat × Watch)) : SimL ws ws := by
  induction ws with
  | nil => exact List.Forall₂.nil
  | cons p rest ih => exact List.Forall₂.cons ⟨rfl, simW_refl p.2⟩ ih

theorem checkSweep_nil (ds : Nat → DescStatus) : checkSweep ds [] = ([], false) := rfl

theorem checkSweep_cons_ready (ds : Nat → DescStatus) (k : Nat) (w : Watch)
    (rest : List (Nat × Watch))
    (hh : isReadyFlags (refreshW (ds k) w).flags = true) :
    checkSweep ds ((k, w) :: rest) = ((k, refreshW (ds k) w) :: rest, true) := by
  simp only [refreshW_flags] at hh
  simp [checkSweep, hh]

theorem checkSweep_cons_not_ready (ds : Nat → DescStatus) (k : Nat) (w : Watch)
    (rest : List (Nat × Watch))
    (hh : isReadyFlags (refreshW (ds k) w).flags = false) :
    checkSweep ds ((k, w) :: rest) =
      ((k, refreshW (ds k) w) :: (checkSweep ds rest).1, (checkSweep ds rest).2) := by
  simp only [refreshW_flags] at hh
  simp [checkSweep, hh]

/-- A check sweep only refreshes watches, so its output table is an
evolution of whatever the input was an evolution of. -/
theorem checkSweep_simL (ds : Nat → DescStatus) (ws ws' : List (Nat × Watch))
    (hsim : SimL ws ws') : SimL ws (checkSweep ds ws').1 := by
  induction hsim with
  | nil => exact List.Forall₂.nil
  | @cons p q l1 l2 hpq hrest ih =>
      obtain ⟨k, w'⟩ := q
      cases hh : isReadyFlags (refreshW (ds k) w').flags with
      | true =>
          rw [checkSweep_cons_ready ds k w' l2 hh]
          exact List.Forall₂.cons ⟨hpq.1, simW_refreshW _ _ _ hpq.2⟩ hrest
      | false =>
          rw [checkSweep_cons_not_ready ds k w' l2 hh]
          exact List.Forall₂.cons ⟨hpq.1, simW_refreshW _ _ _ hpq.2⟩ ih

/-- A collect sweep over an evolved level-triggered table produces the same
reports, and its output is again an evolution of the original table. -/
theorem collectSweep_simL (ds : Nat → DescStatus) (ws ws' : List (Nat × Watch))
    (hsim : SimL ws ws') :
    (∀ p ∈ ws, p.2.event.epollet = false ∧ p.2.event.epolloneshot = false) →
    ∀ cap, (collectSweep ds ws' cap).2 = (collectSweep ds ws cap).2 ∧
      SimL ws (collectSweep ds ws' cap).1 := by
  induction hsim with
  | nil =>
      intro _ cap
      rw [collectSweep_nil]
      exact ⟨rfl, List.Forall₂.nil⟩
  | @cons p q l1 l2 hpq hrest ih =>
      intro hlt cap
      obtain ⟨k, w⟩ := p
      obtain ⟨k2, w'⟩ := q
      obtain ⟨hk, hw⟩ := hpq
      dsimp only at hk hw
      subst hk
      have hhead := hlt (k, w) (List.mem_cons_self _ _)
      have htail : ∀ p ∈ l1, p.2.event.epollet = false ∧ p.2.event.epolloneshot = false :=
        fun p hp => hlt p (List.mem_cons_of_mem _ hp)
      cases cap with
      | zero =>
          rw [collectSweep_zero]
          exact ⟨rfl, List.Forall₂.cons ⟨rfl, hw⟩ hrest⟩
      | succ space =>
          have hdec : (collectWatch (ds k) w').2 = (collectWatch (ds k) w).2 :=
            collectWatch_lt_eq (ds k) w w' hw hhead.1 hhead.2
          have hsimout : SimW w (collectWatch (ds k) w').1 := simW_collectWatch (ds k) w w' hw
          rcases hcw : collectWatch (ds k) w with ⟨w1, orep⟩
          rcases hcw' : collectWatch (ds k) w' with ⟨w1', orep'⟩
          have horep : orep' = orep := by
            have hh := hdec
            rw [hcw, hcw'] at hh
            exact hh
          rw [hcw'] at hsimout
          dsimp only at hsimout
          subst horep
          cases orep' with
          | none =>
              rw [collectSweep_cons_none ds k w w1 l1 space hcw,
                collectSweep_cons_none ds k w' w1' l2 space hcw']
              obtain ⟨hrep, hsl⟩ := ih htail (space + 1)
              exact ⟨hrep, List.Forall₂.cons ⟨rfl, hsimout⟩ hsl⟩
          | some rep =>
              rw [collectSweep_cons_some ds k w w1 rep l1 space hcw,
                collectSweep_cons_some ds k w' w1' rep l2 space hcw']
              obtain ⟨hrep, hsl⟩ := ih htail space
              exact ⟨by rw [hrep], List.Forall₂.cons ⟨rfl, hsimout⟩ hsl⟩

/-- `_epoll_check` does not touch the descriptor-status environment. -/
theorem check_descStatus (o : Oracle) (e : Epoll) :
    (epoll_check o e).1.descStatus = e.descStatus := by
  by_cases hg : (e.flags.closed || e.flags.notifying) = true
  · simp [epoll_check, hg]
  · by_cases hr : ((checkSweep e.descStatus e.watching).2 || o.osReady) = true
    · by_cases hs : (!e.flags.scheduled && o.wantsNotify) = true
      · by_cases hk : o.scheduleOk = true
        · simp [epoll_check, hg, hr, hs, hk]
        · simp [epoll_check, hg, hr, hs, hk]
      · simp [epoll_check, hg, hr, hs]
    · simp [epoll_check, hg, hr]

/-- `_epoll_check` leaves the watch table an evolution of what it was. -/
theorem check_simL (o : Oracle) (ws : List (Nat × Watch)) (e : Epoll)
    (hsim : SimL ws e.watching) : SimL ws (epoll_check o e).1.watching := by
  by_cases hg : (e.flags.closed || e.flags.notifying) = true
  · simpa [epoll_check, hg] using hsim
  · have hcs := checkSweep_simL e.descStatus ws e.watching hsim
    by_cases hr : ((checkSweep e.descStatus e.watching).2 || o.osReady) = true
    · by_cases hs : (!e.flags.scheduled && o.wantsNotify) = true
      · by_cases hk : o.scheduleOk = true
        · simpa [epoll_check, hg, hr, hs, hk] using hcs
        · simpa [epoll_check, hg, hr, hs, hk] using hcs
      · simpa [epoll_check, hg, hr, hs] using hcs
    · simpa [epoll_check, hg, hr] using hcs

/-- The events written by one collect, in terms of its components. -/
theorem getEvents_reports (o : Oracle) (osWait : Nat → List Report) (e : Epoll) (cap : Nat) :
    (epoll_getEvents o osWait e cap).2.1 =
      (collectSweep e.descStatus e.watching cap).2 ++
        (if cap - (collectSweep e.descStatus e.watching cap).2.length = 0 then []
         else osWait (cap - (collectSweep e.descStatus e.watching cap).2.length)) := by
  rw [epoll_getEvents_eq]

/-- C7: with every watch level-triggered (neither edge-triggered nor
one-shot), a second collect with the same capacity, run immediately after
a first one with no descriptor status change and no control operation in
between, reports exactly the same events. -/
theorem epoll_getEvents_idempotent_levelTriggered (o : Oracle) (osWait : Nat → List Report)
    (e : Epoll) (cap : Nat)
    (hlt : ∀ p ∈ e.watching, p.2.event.epollet = false ∧ p.2.event.epolloneshot = false) :
    (epoll_getEvents o osWait (epoll_getEvents o osWait e cap).1 cap).2.1 =
      (epoll_getEvents o osWait e cap).2.1 := by
  have hE1 : (epoll_getEvents o osWait e cap).1 =
      (epoll_check o { e with watching := (collectSweep e.descStatus e.watching cap).1 }).1 := by
    rw [epoll_getEvents_eq]
  have hds : (epoll_getEvents o osWait e cap).1.descStatus = e.descStatus := by
    rw [hE1, check_descStatus]
  have hsw : SimL e.watching (epoll_getEvents o osWait e cap).1.watching := by
    rw [hE1]
    exact check_simL o e.watching _
      ((collectSweep_simL e.descStatus e.watching e.watching (simL_refl _) hlt cap).2)
  have hrep := (collectSweep_simL e.descStatus e.watching
      ((epoll_getEvents o osWait e cap).1.watching) hsw hlt cap).1
  rw [getEvents_reports, getEvents_reports, hds, hrep]

/-- The early-return guard of `_epoll_check` (lines 332-334). -/
theorem check_guard (o : Oracle) (e : Epoll)
    (h : (e.flags.closed || e.flags.notifying) = true) : epoll_check o e = (e, []) := by
  simp [epoll_check, h]

/-- `_epoll_check` on a closed epoll is a no-op. -/
theorem check_closed_fst (o : Oracle) (e : Epoll) (h : e.flags.closed = true) :
    epoll_check o e = (e, []) :=
  check_guard o e (by simp [h])

/-- `_epoll_check` on a notifying epoll is a no-op. -/
theorem check_notifying_fst (o : Oracle) (e : Epoll) (h : e.flags.notifying = true) :
    epoll_check o e = (e, []) :=
  check_guard o e (by simp [h])

/-- An epoll captured in the middle of the notify task's application
continuation: `notifying` is set and, since `_epoll_tryNotify` cleared
`scheduled` at entry and `_epoll_check` is suppressed, `scheduled` is
clear. -/
def epollNotifying : Epoll :=
  { watching := [(1, newWatch evPlain)]
    flags := { scheduled := false, notifying := true, closed := false }
    readable := true
    descStatus := fun _ => dsReady
    pending := 0
    finalized := 0 }

/-- The oracle of a process that wants notifications and whose scheduler
accepts tasks. -/
def oracleNotify : Oracle := { osReady := false, wantsNotify := true, scheduleOk := true }

/-- A fresh epoll over a readable descriptor environment. -/
def epollStart : Epoll :=
  { watching := []
    flags := { scheduled := false, notifying := false, closed := false }
    readable := false
    descStatus := fun _ => dsReady
    pending := 0
    finalized := 0 }

/-- Counterexample to C8 as stated: while `notifying` is set (and hence
`scheduled` is clear), a close IS finalized immediately — and such a close
is reachable, by ADD of a ready descriptor followed by the notify task
whose continuation closes the epoll: the run finalizes exactly once,
inside the continuation. -/
theorem epoll_notifying_close_finalizes_cex :
    epollNotifying.flags.notifying = true ∧
    epollNotifying.flags.closed = false ∧
    (astep epollNotifying AOp.close).finalized = epollNotifying.finalized + 1 ∧
    (erun epollStart
        [EOp.app (AOp.control oracleNotify CtlOp.add 1 evPlain),
         EOp.taskFire true oracleQuiet [AOp.close]]).finalized = 1 :=
  ⟨rfl, rfl, rfl, rfl⟩

/-- C8 as amended: whenever `notifying` or `closed` is set, `_epoll_check`
returns immediately with the state untouched and no effects (no sweep, no
readable-status change, no scheduling); while `notifying` is set no
application operation schedules a task or alters `scheduled` or
`notifying`; but a close performed while `notifying` is set (where
`scheduled` is necessarily clear) IS finalized immediately. -/
theorem epoll_check_guard_amended :
    (∀ (o : Oracle) (e : Epoll), e.flags.notifying = true ∨ e.flags.closed = true →
        epoll_check o e = (e, [])) ∧
    (∀ (e : Epoll) (a : AOp), e.flags.notifying = true →
        (astep e a).pending = e.pending ∧ (astep e a).flags.scheduled = e.flags.scheduled ∧
        (astep e a).flags.notifying = true) ∧
    (∀ e : Epoll, e.flags.notifying = true → e.flags.scheduled = false →
        (astep e AOp.close).finalized = e.finalized + 1) := by
  refine ⟨?_, ?_, ?_⟩
  · rintro o e (h | h)
    · exact check_notifying_fst o e h
    · exact check_closed_fst o e h
  · intro e a hn
    cases a with
    | control o op h ev =>
        cases op with
        | add =>
            cases hl : lookupW h e.watching with
            | some w => simp [astep, epoll_control, hl, hn]
            | none => simp [astep, epoll_control, hl, check_notifying_fst, hn]
        | mod =>
            cases hl : lookupW h e.watching with
            | none => simp [astep, epoll_control, hl, hn]
            | some w => simp [astep, epoll_control, hl, check_notifying_fst, hn]
        | del =>
            cases hl : lookupW h e.watching with
            | none => simp [astep, epoll_control, hl, hn]
            | some w => simp [astep, epoll_control, hl, hn]
        | other n => simp [astep, epoll_control, hn]
    | collect o osWait cap =>
        simp [astep, epoll_getEvents_eq, check_notifying_fst, hn]
    | close =>
        cases hsch : e.flags.scheduled <;>
          simp [astep, epoll_tryToClose, epoll_closeNow, hsch, hn]
    | setStatus o h st =>
        simp [astep, check_notifying_fst, hn]
    | check o =>
        simp [astep, check_notifying_fst, hn]
  · intro e hn hsch
    simp [astep, epoll_tryToClose, epoll_closeNow, hsch]

/-- Witness for the amended C8: on the concrete mid-continuation state,
check is the identity with no effects, and a close finalizes at once. -/
theorem epoll_check_guard_amended_witness :
    epoll_check oracleQuiet epollNotifying = (epollNotifying, []) ∧
    (astep epollNotifying AOp.close).finalized = epollNotifying.finalized + 1 :=
  ⟨epoll_check_guard_amended.1 oracleQuiet epollNotifying (Or.inl rfl),
   epoll_check_guard_amended.2.2 epollNotifying rfl rfl⟩

/-- Witness for C7: two consecutive collects on a concrete level-triggered
epoll report the same events. -/
theorem epoll_getEvents_idempotent_levelTriggered_witness :
    (epoll_getEvents oracleQuiet (fun _ => [])
        (epoll_getEvents oracleQuiet (fun _ => []) epollOneWatch 4).1 4).2.1 =
      (epoll_getEvents oracleQuiet (fun _ => []) epollOneWatch 4).2.1 :=
  epoll_getEvents_idempotent_levelTriggered oracleQuiet (fun _ => []) epollOneWatch 4
    (by intro p hp; simp [epollOneWatch] at hp; simp [hp, newWatch, evPlain])

/-- Whether an application operation is the close entry. -/
def AOp.isClose : AOp → Bool
  | .close => true
  | _ => false

/-- A top-level operation that performs no (further) close, not even
inside a notify continuation. -/
def EOp.closeFree : EOp → Prop
  | .app a => a.isClose = false
  | .taskFire _ _ cont => ∀ a ∈ cont, a.isClose = false

/-- Whether a top-level operation is the scheduler firing a notify task. -/
def EOp.isFire : EOp → Bool
  | .taskFire _ _ _ => true
  | .app _ => false

/-- Whether the trace contains a task firing. -/
def hasFire : List EOp → Bool
  | [] => false
  | op :: rest => op.isFire || hasFire rest

@[simp] theorem erun_nil (e : Epoll) : erun e [] = e := rfl

@[simp] theorem erun_cons (e : Epoll) (op : EOp) (ops : List EOp) :
    erun e (op :: ops) = erun (estep e op) ops := rfl

/-- On a closed epoll, any application operation other than close leaves
the flag set, the pending-task count and the finalization count alone
(every reachable `_epoll_check` hits the closed guard). -/
theorem astep_closed (e : Epoll) (a : AOp) (hcl : e.flags.closed = true)
    (hnc : a.isClose = false) :
    (astep e a).flags = e.flags ∧ (astep e a).pending = e.pending ∧
    (astep e a).finalized = e.finalized := by
  cases a with
  | control o op h ev =>
      cases op with
      | add =>
          cases hl : lookupW h e.watching with
          | some w => simp [astep, epoll_control, hl]
          | none => simp [astep, epoll_control, hl, check_closed_fst, hcl]
      | mod =>
          cases hl : lookupW h e.watching with
          | none => simp [astep, epoll_control, hl]
          | some w => simp [astep, epoll_control, hl, check_closed_fst, hcl]
      | del =>
          cases hl : lookupW h e.watching with
          | none => simp [astep, epoll_control, hl]
          | some w => simp [astep, epoll_control, hl]
      | other n => simp [astep, epoll_control]
  | collect o osWait cap =>
      simp [astep, epoll_getEvents_eq, check_closed_fst, hcl]
  | close => simp [AOp.isClose] at hnc
  | setStatus o h st =>
      simp [astep, check_closed_fst, hcl]
  | check o =>
      simp [astep, check_closed_fst, hcl]

/-- Closed, not scheduled, no pending task: the quiescent regime after
finalization is settled. -/
def IdleClosed (e : Epoll) : Prop :=
  e.flags.closed = true ∧ e.flags.scheduled = false ∧ e.pending = 0

/-- Closed with the one scheduled notify task still pending. -/
def ArmedClosed (e : Epoll) : Prop :=
  e.flags.closed = true ∧ e.flags.scheduled = true ∧ e.pending = 1

theorem estep_idle (e : Epoll) (op : EOp) (hi : IdleClosed e) (hcf : op.closeFree) :
    IdleClosed (estep e op) ∧ (estep e op).finalized = e.finalized := by
  obtain ⟨h1, h2, h3⟩ := hi
  cases op with
  | app a =>
      obtain ⟨hf, hp, hfin⟩ := astep_closed e a h1 hcf
      exact ⟨⟨by rw [estep, hf]; exact h1, by rw [estep, hf]; exact h2,
        by rw [estep, hp]; exact h3⟩, hfin⟩
  | taskFire pr o cont =>
      rw [estep, if_pos h3]
      exact ⟨⟨h1, h2, h3⟩, rfl⟩

theorem erun_idle (ops : List EOp) (e : Epoll) (hi : IdleClosed e)
    (hcf : ∀ op ∈ ops, op.closeFree) :
    IdleClosed (erun e ops) ∧ (erun e ops).finalized = e.finalized := by
  induction ops generalizing e with
  | nil => exact ⟨hi, rfl⟩
  | cons op rest ih =>
      obtain ⟨hi', hfin⟩ := estep_idle e op hi (hcf op (List.mem_cons_self _ _))
      obtain ⟨hi'', hfin'⟩ := ih (estep e op) hi' (fun o ho => hcf o (List.mem_cons_of_mem _ ho))
      exact ⟨hi'', by rw [erun_cons, hfin', hfin]⟩

theorem estep_armed_nofire (e : Epoll) (op : EOp) (ha : ArmedClosed e)
    (hcf : op.closeFree) (hnf : op.isFire = false) :
    ArmedClosed (estep e op) ∧ (estep e op).finalized = e.finalized := by
  obtain ⟨h1, h2, h3⟩ := ha
  cases op with
  | app a =>
      obtain ⟨hf, hp, hfin⟩ := astep_closed e a h1 hcf
      exact ⟨⟨by rw [estep, hf]; exact h1, by rw [estep, hf]; exact h2,
        by rw [estep, hp]; exact h3⟩, hfin⟩
  | taskFire pr o cont => simp [EOp.isFire] at hnf

theorem estep_armed_fire (e : Epoll) (pr : Bool) (o : Oracle) (cont : List AOp)
    (ha : ArmedClosed e) :
    IdleClosed (estep e (EOp.taskFire pr o cont)) ∧
    (estep e (EOp.taskFire pr o cont)).finalized = e.finalized + 1 := by
  obtain ⟨h1, h2, h3⟩ := ha
  rw [estep, if_neg (by rw [h3]; exact Nat.one_ne_zero)]
  rw [epoll_tryNotify]
  simp only [h1, Bool.true_or, if_pos rfl]
  exact ⟨⟨rfl, rfl, by simp [epoll_closeNow, h3]⟩, rfl⟩

theorem erun_armed_nofire (ops : List EOp) (e : Epoll) (ha : ArmedClosed e)
    (hcf : ∀ op ∈ ops, op.closeFree) (hnf : hasFire ops = false) :
    ArmedClosed (erun e ops) ∧ (erun e ops).finalized = e.finalized := by
  induction ops generalizing e with
  | nil => exact ⟨ha, rfl⟩
  | cons op rest ih =>
      rw [hasFire, Bool.or_eq_false_iff] at hnf
      obtain ⟨ha', hfin⟩ := estep_armed_nofire e op ha (hcf op (List.mem_cons_self _ _)) hnf.1
      obtain ⟨ha'', hfin'⟩ := ih (estep e op) ha' (fun o ho => hcf o (List.mem_cons_of_mem _ ho))
        hnf.2
      exact ⟨ha'', by rw [erun_cons, hfin', hfin]⟩

theorem erun_armed (ops : List EOp) (e : Epoll) (ha : ArmedClosed e)
    (hcf : ∀ op ∈ ops, op.closeFree) :
    (erun e ops).finalized = e.finalized + (if hasFire ops = true then 1 else 0) := by
  induction ops generalizing e with
  | nil => simp [hasFire]
  | cons op rest ih =>
      cases hf : op.isFire with
      | false =>
          obtain ⟨ha', hfin⟩ := estep_armed_nofire e op ha (hcf op (List.mem_cons_self _ _)) hf
          rw [erun_cons, ih (estep e op) ha' (fun o ho => hcf o (List.mem_cons_of_mem _ ho)),
            hfin, hasFire, hf, Bool.false_or]
      | true =>
          cases op with
          | app a => simp [EOp.isFire] at hf
          | taskFire pr o cont =>
              obtain ⟨hi', hfin⟩ := estep_armed_fire e pr o cont ha
              obtain ⟨_, hfin'⟩ := erun_idle rest _ hi'
                (fun o ho => hcf o (List.mem_cons_of_mem _ ho))
              rw [erun_cons, hfin', hfin, hasFire]
              simp [EOp.isFire]

/-- C9: `close()` marks the epoll closed.  If no notify task is scheduled
at that moment, finalization happens immediately within close and never
again afterwards.  If one is scheduled, close does not finalize;
finalization then happens exactly at the pending task's firing (zero
finalizations strictly before it, one at it), and the whole remaining
trace performs exactly one finalization when the task fires (zero if it
never does). -/
theorem epoll_close_finalization (e : Epoll) (ops : List EOp)
    (hwf1 : e.flags.scheduled = true → e.pending = 1)
    (hwf2 : e.flags.scheduled = false → e.pending = 0)
    (hcl : e.flags.closed = false)
    (hfin : e.finalized = 0)
    (hops : ∀ op ∈ ops, op.closeFree) :
    (epoll_tryToClose e).flags.closed = true ∧
    (e.flags.scheduled = false →
        (epoll_tryToClose e).finalized = 1 ∧ (erun (epoll_tryToClose e) ops).finalized = 1) ∧
    (e.flags.scheduled = true →
        (epoll_tryToClose e).finalized = 0 ∧
        (erun (epoll_tryToClose e) ops).finalized = (if hasFire ops = true then 1 else 0) ∧
        (∀ (l1 : List EOp) (op2 : EOp) (l2 : List EOp), ops = l1 ++ op2 :: l2 →
            hasFire l1 = false → op2.isFire = true →
            (erun (epoll_tryToClose e) l1).finalized = 0 ∧
            (estep (erun (epoll_tryToClose e) l1) op2).finalized = 1)) := by
  refine ⟨?_, ?_, ?_⟩
  · cases hsch : e.flags.scheduled <;>
      simp [epoll_tryToClose, epoll_closeNow, hsch]
  · intro hsch
    have he1 : epoll_tryToClose e = epoll_closeNow { e with flags := { e.flags with closed := true } } := by
      rw [epoll_tryToClose]
      simp [hsch]
    have hfin1 : (epoll_tryToClose e).finalized = 1 := by
      rw [he1]
      simp [epoll_closeNow, hfin]
    have hidle : IdleClosed (epoll_tryToClose e) := by
      rw [he1]
      exact ⟨rfl, hsch, by simp [epoll_closeNow, hwf2 hsch]⟩
    exact ⟨hfin1, by rw [(erun_idle ops _ hidle hops).2, hfin1]⟩
  · intro hsch
    have he1 : epoll_tryToClose e = { e with flags := { e.flags with closed := true } } := by
      rw [epoll_tryToClose]
      simp [hsch]
    have hfin1 : (epoll_tryToClose e).finalized = 0 := by rw [he1]; exact hfin
    have harmed : ArmedClosed (epoll_tryToClose e) := by
      rw [he1]
      exact ⟨rfl, hsch, hwf1 hsch⟩
    refine ⟨hfin1, by rw [erun_armed ops _ harmed hops, hfin1, Nat.zero_add], ?_⟩
    intro l1 op2 l2 hsplit hnf hf
    have hcf1 : ∀ op ∈ l1, op.closeFree := by
      intro o ho
      exact hops o (by rw [hsplit]; exact List.mem_append_left _ ho)
    obtain ⟨harm1, hfineq⟩ := erun_armed_nofire l1 _ harmed hcf1 hnf
    have hfin0 : (erun (epoll_tryToClose e) l1).finalized = 0 := by rw [hfineq, hfin1]
    refine ⟨hfin0, ?_⟩
    cases op2 with
    | app a => simp [EOp.isFire] at hf
    | taskFire pr o cont =>
        obtain ⟨_, hfi⟩ := estep_armed_fire _ pr o cont harm1
        rw [hfi, hfin0]

/-- A closed-pending scenario: one watch, one scheduled notify task. -/
def epollArmed : Epoll :=
  { watching := [(1, newWatch evPlain)]
    flags := { scheduled := true, notifying := false, closed := false }
    readable := true
    descStatus := fun _ => dsReady
    pending := 1
    finalized := 0 }

/-- Witness for C9: closing the armed epoll defers finalization to the
pending notify task, and the trace that fires it finalizes exactly once. -/
theorem epoll_close_finalization_witness :
    (epoll_tryToClose epollArmed).flags.closed = true ∧
    (epoll_tryToClose epollArmed).finalized = 0 ∧
    (erun (epoll_tryToClose epollArmed) [EOp.taskFire true oracleQuiet []]).finalized =
      (if hasFire [EOp.taskFire true oracleQuiet []] = true then 1 else 0) := by
  have hops : ∀ op ∈ [EOp.taskFire true oracleQuiet []], op.closeFree := by
    intro op hop
    rw [List.mem_singleton] at hop
    subst hop
    intro a ha
    exact absurd ha (List.not_mem_nil a)
  have hmain := epoll_close_finalization epollArmed [EOp.taskFire true oracleQuiet []]
    (fun _ => rfl) (fun h => by simp [epollArmed] at h) rfl rfl hops
  exact ⟨hmain.1, (hmain.2.2 rfl).1, (hmain.2.2 rfl).2.1⟩

/-- An edge-triggered read subscription. -/
def evET : EvMask :=
  { epollin := true, epollout := false, epollet := true, epolloneshot := false, cookie := 7 }

/-- A watch on a readable descriptor, subscribed edge-triggered. -/
def wsET : WState := { status := dsReady, watch := newWatch evET }

/-- Readability drops and comes back, with a check refresh in between. -/
def opsET : List WOp := [WOp.setStatus dsIdle, WOp.touch, WOp.setStatus dsReady]

/-- Witness for C2: with the readability toggle in between, the second
collect does report, and the theorem pins this on the readability change. -/
theorem edgeTriggered_no_rereport_witness :
    (({ cookie := 7, epollin := true, epollout := false, epollet := true } : Report).epollin
          = true ∧
        readStable (wstep wsET (WOp.collect true)).1.status opsET = false) ∨
    (({ cookie := 7, epollin := true, epollout := false, epollet := true } : Report).epollout
          = true ∧
        writeStable (wstep wsET (WOp.collect true)).1.status opsET = false) :=
  edgeTriggered_no_rereport wsET opsET
    { cookie := 7, epollin := true, epollout := false, epollet := true }
    { cookie := 7, epollin := true, epollout := false, epollet := true }
    rfl rfl (by decide) rfl

/-- A one-shot read subscription. -/
def ev1S : EvMask :=
  { epollin := true, epollout := false, epollet := false, epolloneshot := true, cookie := 3 }

/-- A watch on a readable descriptor, subscribed one-shot. -/
def ws1S : WState := { status := dsReady, watch := newWatch ev1S }

/-- Status churn without any MOD. -/
def ops1S : List WOp := [WOp.setStatus dsIdle, WOp.setStatus dsReady]

/-- Witness for C3: after the first one-shot report, the later collect
reports nothing despite the descriptor being readable again. -/
theorem oneShot_no_rereport_witness :
    (wstep (wrun (wstep ws1S (WOp.collect true)).1 ops1S) (WOp.collect true)).2 = none :=
  oneShot_no_rereport ws1S ops1S
    { cookie := 3, epollin := true, epollout := false, epollet := false } true
    rfl rfl (by decide)
